import Mathlib

/-!
Verification of the Enact-Pricing extraction-and-analysis pipeline.

The repository is Python.  We shallowly embed the relevant functions over an
exact model: Python `str` is modelled as `List Char` (called `PyStr` below),
Python numbers (`Decimal` / `float`) are modelled as `ℚ`, and the only
irrational quantity in the code — `statistics.stdev`, a square root — is
modelled in `ℝ` via `Real.sqrt`.  IEEE-754 float rounding is idealised as
exact rational arithmetic, and Python's banker's rounding in `round(x, 2)`
is modelled by Mathlib's `round` (they differ only at exact half-cent ties,
which no theorem below depends on).  Fallible Python code paths (uncaught
exceptions) are modelled with `Option`.
-/

/-- Model of a Python `str`: a list of characters. -/
abbrev PyStr := List Char

/-! ## Generic Python string/number helpers (models of str/stdlib methods) -/

/-- Model of Python `str.strip()`: drop whitespace from both ends. -/
def pyStrip (s : PyStr) : PyStr :=
  ((s.dropWhile Char.isWhitespace).reverse.dropWhile Char.isWhitespace).reverse

/-- Model of Python `str.lower()` (ASCII letters). -/
def pyLower (s : PyStr) : PyStr := s.map Char.toLower

/-- Model of Python `sub in s` (substring containment). -/
def containsSub (pat : PyStr) : PyStr → Bool
  | [] => pat.isEmpty
  | x :: rest => pat.isPrefixOf (x :: rest) || containsSub pat rest

/-- Model of Python `s.split(pat)[0]`: the part of `s` before the first
occurrence of `pat` (all of `s` if `pat` does not occur). -/
def takeBefore (pat : PyStr) : PyStr → PyStr
  | [] => []
  | x :: rest => if pat.isPrefixOf (x :: rest) then [] else x :: takeBefore pat rest

/-- Model of Python `s.replace(c, '', n)`: remove the first `n` occurrences of
the character `c`. -/
def removeFirstOcc (c : Char) : Nat → PyStr → PyStr
  | _, [] => []
  | 0, l => l
  | n + 1, x :: xs => if x = c then removeFirstOcc c n xs else x :: removeFirstOcc c (n + 1) xs

/-- Keep only the last occurrence of the character `c`, dropping every earlier
one (the spec's wording for collapsing stray decimal points). -/
def dropAllButLast (c : Char) : PyStr → PyStr
  | [] => []
  | x :: xs => if x = c ∧ c ∈ xs then dropAllButLast c xs else x :: dropAllButLast c xs

/-- Numeric value of a string of decimal digit characters. -/
def digitsVal (s : PyStr) : Nat :=
  s.foldl (fun acc c => 10 * acc + c.toNat - '0'.toNat) 0

/-- Model of Python `decimal.Decimal(s)` restricted to strings of digits and
decimal points (the only strings the parser ever feeds to it): it succeeds
exactly when there is at most one point and at least one digit. -/
def parseDecNum (s : PyStr) : Option ℚ :=
  if s.all (fun c => c.isDigit || c = '.') ∧ s.count '.' ≤ 1 ∧ s.any Char.isDigit then
    let intPart := s.takeWhile (fun c => c ≠ '.')
    let fracPart := (s.dropWhile (fun c => c ≠ '.')).drop 1
    some (mkRat (digitsVal intPart * 10 ^ fracPart.length + digitsVal fracPart)
      (10 ^ fracPart.length))
  else none

/-- Model of Python `float(s)` restricted to plain decimal literals with an
optional sign (no exponent notation, which never occurs in the inputs the
repository feeds it). -/
def pyFloat (s : PyStr) : Option ℚ :=
  match pyStrip s with
  | '+' :: r => parseDecNum r
  | '-' :: r => (parseDecNum r).map (fun q => -q)
  | t => parseDecNum t

/-! ## Exact rational arithmetic through `mkRat`

The kernel does not reduce `Rat.add`/`Rat.mul`/`Rat.inv`, so the embedding
computes with `mkRat`-based operations (each provably equal to the standard
one — see `qadd_eq` etc. below) to keep every pipeline value evaluable. -/

/-- Exact rational addition (equals `a + b`). -/
def qadd (a b : ℚ) : ℚ := mkRat (a.num * b.den + b.num * a.den) (a.den * b.den)

/-- Exact rational subtraction (equals `a - b`). -/
def qsub (a b : ℚ) : ℚ := mkRat (a.num * b.den - b.num * a.den) (a.den * b.den)

/-- Exact rational multiplication (equals `a * b`). -/
def qmul (a b : ℚ) : ℚ := mkRat (a.num * b.num) (a.den * b.den)

/-- Exact rational division (equals `a / b`, with `a / 0 = 0`). -/
def qdiv (a b : ℚ) : ℚ := mkRat (a.num * b.den * b.num.sign) (a.den * b.num.natAbs)

/-- Exact sum of a list of rationals (equals `l.sum`). -/
def qsum (l : List ℚ) : ℚ := l.foldr qadd 0

/-! ## Models of the `statistics` standard-library functions -/

/-- Model of `statistics.mean`: the exact arithmetic mean (`0` on `[]`,
where the code never calls it). -/
def pyMean (l : List ℚ) : ℚ := qdiv (qsum l) (mkRat l.length 1)

/-- Stable ascending insertion. -/
def insertAscQ (x : ℚ) : List ℚ → List ℚ
  | [] => [x]
  | y :: ys => if x ≤ y then x :: y :: ys else y :: insertAscQ x ys

/-- Model of Python `sorted` on numbers (ascending, stable). -/
def sortAscQ (l : List ℚ) : List ℚ := l.foldr insertAscQ []

/-- Model of `statistics.median`: middle element of the sorted list, or the
mean of the two middle elements for even length (`0` on `[]`). -/
def pyMedian (l : List ℚ) : ℚ :=
  let s := sortAscQ l
  if l.length % 2 = 1 then s.getD (l.length / 2) 0
  else qdiv (qadd (s.getD (l.length / 2 - 1) 0) (s.getD (l.length / 2) 0)) (mkRat 2 1)

/-- Model of Python `min` on a list of numbers (`0` on `[]`). -/
def pyMin : List ℚ → ℚ
  | [] => 0
  | x :: xs => xs.foldl min x

/-- Model of Python `max` on a list of numbers (`0` on `[]`). -/
def pyMax : List ℚ → ℚ
  | [] => 0
  | x :: xs => xs.foldl max x

/-- Sample variance `Σ (x - mean)² / (n - 1)`, the square of
`statistics.stdev` (exact; the code's float arithmetic is idealised). -/
def sampleVar (l : List ℚ) : ℚ :=
  qdiv (qsum (l.map (fun x => qmul (qsub x (pyMean l)) (qsub x (pyMean l)))))
    (qsub (mkRat l.length 1) 1)

/-- The spec's arithmetic mean, written directly in `ℝ`. -/
noncomputable def meanR (l : List ℚ) : ℝ := (l.map (fun x : ℚ => (x : ℝ))).sum / l.length

/-- The spec's sample standard deviation, written directly in `ℝ`:
`sqrt (Σ (x - mean)² / (n - 1))`. -/
noncomputable def stdevSpec (l : List ℚ) : ℝ :=
  Real.sqrt ((l.map (fun x : ℚ => ((x : ℝ) - meanR l) ^ 2)).sum / ((l.length : ℝ) - 1))

/-- Model of Python `round(q, 2)`: round to a whole number of hundredths.
`⌊(200·num + den) / (2·den)⌋ = ⌊100·q + 1/2⌋` (Python rounds half-to-even;
the two differ only at exact half-cent ties, which nothing below exercises). -/
def round2 (q : ℚ) : ℚ := mkRat (Int.fdiv (200 * q.num + q.den) (2 * q.den)) 100

/-- `round(x, 2)` applied to a real intermediate value (the standard
deviation is a square root); the result is a whole number of hundredths. -/
noncomputable def round2R (x : ℝ) : ℚ := mkRat (round (x * 100)) 100

/-- Model of the f-string conversion `f"{x:.2f}"`: sign, integer digits,
a point and exactly two fractional digits. -/
def format2f (q : ℚ) : PyStr :=
  let n : Int := Int.fdiv (200 * q.num + q.den) (2 * q.den)
  let m : Nat := n.natAbs
  (if n < 0 then ['-'] else []) ++ Nat.toDigits 10 (m / 100) ++
    ['.', Nat.digitChar (m / 10 % 10)] ++ [Nat.digitChar (m % 10)]

/-- Model of Python `str(x)` for a float holding a whole number of
hundredths (the only values the pipeline interpolates): `7 ↦ "7.0"`,
`7.5 ↦ "7.5"`, `7.25 ↦ "7.25"`; other denominators are truncated to
hundredths. -/
def formatPyNum (q : ℚ) : PyStr :=
  let sign : PyStr := if q.num < 0 then ['-'] else []
  let m : Nat := q.num.natAbs
  if q.den = 1 then sign ++ Nat.toDigits 10 m ++ ['.', '0']
  else
    let n : Nat := m * 100 / q.den
    let frac : Nat := n % 100
    sign ++ Nat.toDigits 10 (n / 100) ++ ['.'] ++
      (if frac % 10 = 0 then [Nat.digitChar (frac / 10)]
       else [Nat.digitChar (frac / 10), Nat.digitChar (frac % 10)])

/-- Stable descending insertion by the second component. -/
def insertDescBy (x : PyStr × ℚ) : List (PyStr × ℚ) → List (PyStr × ℚ)
  | [] => [x]
  | y :: ys => if y.2 ≤ x.2 then x :: y :: ys else y :: insertDescBy x ys

/-- Model of Python `sorted(items, key=..., reverse=True)` on brand/price
pairs: stable, descending by price. -/
def sortDescBy (l : List (PyStr × ℚ)) : List (PyStr × ℚ) := l.foldr insertDescBy []

namespace PriceParser

/-- The range rule of `extract_numeric_price` (parser_enhanced.py:30-31):
`if ' to ' in price_str: price_str = price_str.split(' to ')[0]`. -/
def rangeCut (s : PyStr) : PyStr :=
  if containsSub " to ".data s then takeBefore " to ".data s else s

/-- The stripping rule (parser_enhanced.py:34): keep only digits and
decimal points. -/
def stripNonNumeric (s : PyStr) : PyStr := s.filter (fun c => c.isDigit || c = '.')

/-- The multiple-decimal-point rule as coded (parser_enhanced.py:37-38):
`numeric_str.replace('.', '', numeric_str.count('.') - 1)` removes the first
`count - 1` points. -/
def collapseDots (s : PyStr) : PyStr :=
  if s.count '.' > 1 then removeFirstOcc '.' (s.count '.' - 1) s else s

/-- Embedding of `PriceParser.extract_numeric_price`
(src/src/parser_enhanced.py:14-47): returns the parsed non-negative decimal
amount, or `none` for unparseable input. -/
def extract_numeric_price (price_str : PyStr) : Option ℚ :=
  if price_str = [] ∨ price_str = "Not specified".data ∨ pyStrip price_str = [] then
    none
  else
    let numeric_str := collapseDots (stripNonNumeric (rangeCut price_str))
    if numeric_str ≠ [] then parseDecNum numeric_str else none

end PriceParser

/-- The multiple-decimal-point rule as the spec words it (§4.4 rule 4):
"collapse to a single decimal point by removing all but the last one". -/
def collapseDotsSpec (s : PyStr) : PyStr :=
  if s.count '.' > 1 then dropAllButLast '.' s else s

/-- The spec's five price-normalisation rules (§4.4), written from the spec's
words, to be compared with the code's `extract_numeric_price`:
(1) placeholder/empty text is unparseable; (2) a range "X to Y" takes X
(the lower bound); (3) strip every character that is not a digit or a
decimal point; (4) if more than one decimal point remains, remove all but
the last one; (5) an empty or unparseable remainder is unparseable,
otherwise the parsed amount. -/
def normalize_spec (s : PyStr) : Option ℚ :=
  if pyStrip s = [] ∨ s = "Not specified".data then none
  else
    let s₃ := collapseDotsSpec (PriceParser.stripNonNumeric (PriceParser.rangeCut s))
    if s₃ = [] then none else parseDecNum s₃

namespace MarketAnalyzer

/-- A product record as consumed by `MarketAnalyzer.analyze_prices`
(src/src/parser_enhanced.py): a loosely-typed dict; `none` models an absent
key (`product.get('price', '')` / `product.get('brand', 'Not specified')`). -/
structure Product where
  price : Option PyStr
  brand : Option PyStr
deriving DecidableEq

/-- A product record after normalization: the analyzer adds the
`numeric_price` key in place; we model the mutation by returning enriched
records. -/
structure NProduct where
  price : Option PyStr
  brand : Option PyStr
  numeric_price : ℚ
deriving DecidableEq

/-- The `market_stats` sub-dict (all currency fields already rounded to two
decimals, exactly as the code stores them); the nested `price_range` dict is
flattened to `price_min`/`price_max`. -/
structure MarketStats where
  average_price : ℚ
  median_price : ℚ
  price_std : ℚ
  price_min : ℚ
  price_max : ℚ
deriving DecidableEq

/-- The `price_segments` sub-dict. -/
structure PriceSegments where
  budget : ℚ
  mid_range : ℚ
  premium : ℚ
deriving DecidableEq

/-- The dict returned by `MarketAnalyzer.analyze_prices`; `brand_averages`
is an insertion-ordered association list (Python dicts preserve insertion
order). -/
structure Analysis where
  market_stats : MarketStats
  brand_averages : List (PyStr × ℚ)
  price_segments : PriceSegments
deriving DecidableEq

/-- `MarketAnalyzer._get_empty_analysis` (parser_enhanced.py:111-130). -/
def empty_analysis : Analysis :=
  { market_stats :=
      { average_price := 0, median_price := 0, price_std := 0
        price_min := 0, price_max := 0 }
    brand_averages := []
    price_segments := { budget := 0, mid_range := 0, premium := 0 } }

/-- One step of the annotation loop (parser_enhanced.py:66-72): parse the
price text; on success store it as `numeric_price`, otherwise store `0`. -/
def annotate (p : Product) : NProduct :=
  { price := p.price, brand := p.brand
    numeric_price := (PriceParser.extract_numeric_price (p.price.getD [])).getD 0 }

/-- The list `prices` built by the loop: the successfully parsed prices, in
record order. -/
def parsedPrices (products : List Product) : List ℚ :=
  products.filterMap (fun p => PriceParser.extract_numeric_price (p.price.getD []))

/-- Effective brand of a record: `product.get('brand', 'Not specified')`. -/
def brandOf (p : NProduct) : PyStr := p.brand.getD "Not specified".data

/-- Whether a record participates in brand aggregation
(parser_enhanced.py:137-138): explicit non-placeholder brand and positive
numeric price. -/
def brandQualifies (p : NProduct) : Bool :=
  decide (brandOf p ≠ "Not specified".data) && decide (0 < p.numeric_price)

/-- The brands in first-occurrence order (Python dict key order). -/
def brandKeys (l : List NProduct) : List PyStr :=
  l.foldl (fun acc p =>
    if brandQualifies p ∧ brandOf p ∉ acc then acc ++ [brandOf p] else acc) []

/-- The prices recorded for one brand, in record order. -/
def brandPricesOf (l : List NProduct) (b : PyStr) : List ℚ :=
  l.filterMap (fun p =>
    if brandQualifies p ∧ brandOf p = b then some p.numeric_price else none)

/-- `MarketAnalyzer._calculate_brand_averages` (parser_enhanced.py:132-146):
per-brand mean price, brands in first-occurrence order, unrounded. -/
def calculate_brand_averages (l : List NProduct) : List (PyStr × ℚ) :=
  (brandKeys l).map (fun b => (b, pyMean (brandPricesOf l b)))

/-- `statistics.stdev(prices)` inside its `try`/`except`
(parser_enhanced.py:81-84): sample standard deviation when it is defined
(at least two data points), else the code's fallback of 20% of the mean. -/
noncomputable def price_std_of (prices : List ℚ) : ℝ :=
  if 2 ≤ prices.length then Real.sqrt ((sampleVar prices : ℚ) : ℝ)
  else ((pyMean prices : ℚ) : ℝ) * (20 / 100)

/-- Embedding of `MarketAnalyzer.analyze_prices` (parser_enhanced.py:49-109).
The Python function mutates `products` in place (adding `numeric_price`) and
returns the analysis dict; we return the enriched records together with the
analysis.  Float arithmetic is idealised as exact arithmetic (`ℚ`, and `ℝ`
for the standard deviation). -/
noncomputable def analyze_prices (products : List Product) :
    List NProduct × Analysis :=
  if products = [] then ([], empty_analysis)
  else
    let annotated := products.map annotate
    let prices := parsedPrices products
    if prices = [] then (annotated, empty_analysis)
    else
      let avg := pyMean prices
      let std := price_std_of prices
      let budget : ℝ := max 0 ((avg : ℝ) - std)
      let premium : ℝ := (avg : ℝ) + std
      (annotated,
        { market_stats :=
            { average_price := round2 avg
              median_price := round2 (pyMedian prices)
              price_std := round2R std
              price_min := round2 (pyMin prices)
              price_max := round2 (pyMax prices) }
          brand_averages := calculate_brand_averages annotated
          price_segments :=
            { budget := round2R budget
              mid_range := round2 avg
              premium := round2R premium } })

end MarketAnalyzer

namespace RecommendationGenerator

/-- Embedding of `RecommendationGenerator.generate_price_recommendations`
(parser_enhanced.py:148-194).  `none` models a falsy `market_analysis`
argument.  Interpolated floats are rendered with `formatPyNum` (plain
`str`), brand averages rounded to two decimals as in the source. -/
def generate_price_recommendations (product_data : List MarketAnalyzer.Product)
    (market_analysis : Option MarketAnalyzer.Analysis) : List PyStr :=
  match market_analysis with
  | none => ["Insufficient data for price analysis.".data]
  | some a =>
    ["Market Overview:".data,
     "• Average market price: £".data ++ formatPyNum a.market_stats.average_price,
     "• Price range: £".data ++ formatPyNum a.market_stats.price_min ++
       " - £".data ++ formatPyNum a.market_stats.price_max,
     "\nPrice Segments:".data,
     "• Budget segment: Below £".data ++ formatPyNum a.price_segments.budget,
     "• Mid-range segment: Around £".data ++ formatPyNum a.price_segments.mid_range,
     "• Premium segment: Above £".data ++ formatPyNum a.price_segments.premium] ++
    (if a.brand_averages ≠ [] then
       "\nBrand Positioning:".data ::
         a.brand_averages.map (fun bp =>
           "• ".data ++ bp.1 ++ ": Average price £".data ++ formatPyNum (round2 bp.2))
     else []) ++
    ["\nStrategic Recommendations:".data,
     "• For competitive pricing: Set prices slightly below the market average".data,
     "• For premium positioning: Price 10-15% above the market average".data,
     "• For market penetration: Consider pricing at the lower segment".data]

end RecommendationGenerator

namespace ChatbotAssistant

/-- The observable behaviour of `ChatbotAssistant.generate_response`
(parser_enhanced.py:296-324): it either returns a string without touching
the delegate, crashes before the delegate call (subscripting a `None`
`market_analysis` in `_create_product_summary`), or invokes the delegate
(whose answer is external and not modelled). -/
inductive ChatOutcome where
  | returned (msg : PyStr)
  | crashed
  | delegated
deriving DecidableEq

/-- The fixed guard message of `ChatbotAssistant.generate_response`. -/
def fixedChatMessage : PyStr :=
  "Please analyze some market data first before asking questions.".data

/-- Embedding of `ChatbotAssistant.generate_response`
(parser_enhanced.py:296-324).  `if not product_data:` is true exactly for an
absent (`None`) or empty product list; otherwise `_create_product_summary`
subscripts `market_analysis`, which crashes when it is `None`, and the
delegate is invoked only after both summaries are built. -/
def generate_response (user_question : PyStr)
    (product_data : Option (List MarketAnalyzer.Product))
    (market_analysis : Option MarketAnalyzer.Analysis) : ChatOutcome :=
  match product_data with
  | none => .returned fixedChatMessage
  | some [] => .returned fixedChatMessage
  | some (_ :: _) =>
    match market_analysis with
    | none => .crashed
    | some _ => .delegated

end ChatbotAssistant

namespace LegacyParser

/-- A product record as consumed by `analyze_market_data` (src/parser.py):
`none` models an absent `'price'`/`'brand'` key. -/
structure LProduct where
  price : Option PyStr
  brand : Option PyStr
deriving DecidableEq

/-- The `market_stats` sub-dict of parser.py (unrounded; the nested
`price_range` dict is flattened to `price_min`/`price_max`). -/
structure LStats where
  average_price : ℚ
  median_price : ℚ
  price_min : ℚ
  price_max : ℚ
deriving DecidableEq

/-- The `price_segments` sub-dict of parser.py. -/
structure LSegments where
  budget : ℚ
  mid_range : ℚ
  premium : ℚ
deriving DecidableEq

/-- The dict returned by `analyze_market_data` (src/parser.py:88-165). -/
structure LAnalysis where
  market_stats : LStats
  price_segments : LSegments
  brand_averages : List (PyStr × ℚ)
deriving DecidableEq

/-- The empty analysis returned for no products / no prices
(parser.py:90-121). -/
def empty_analysis : LAnalysis :=
  { market_stats :=
      { average_price := 0, median_price := 0, price_min := 0, price_max := 0 }
    price_segments := { budget := 0, mid_range := 0, premium := 0 }
    brand_averages := [] }

/-- `float(str(p['price']).replace('£', '').replace(',', ''))`
(parser.py:106): strip pound signs and commas, then parse; `none` models the
uncaught `ValueError` on unparseable text. -/
def legacyPrice (s : PyStr) : Option ℚ :=
  pyFloat (s.filter (fun c => ¬ (c = '£' ∨ c = ',')))

/-- The `prices` list comprehension (parser.py:106): one parsed price per
record that has a `'price'` key; `none` models the comprehension raising. -/
def legacyPricesOpt (products : List LProduct) : Option (List ℚ) :=
  (products.filterMap (fun p => p.price)).mapM legacyPrice

/-- Append a price to a brand's bucket, preserving dict insertion order
(parser.py:135-143). -/
def addBrandPrice (b : PyStr) (q : ℚ) :
    List (PyStr × List ℚ) → List (PyStr × List ℚ)
  | [] => [(b, [q])]
  | (b', qs) :: rest =>
    if b' = b then (b', qs ++ [q]) :: rest else (b', qs) :: addBrandPrice b q rest

/-- The brand loop of parser.py:135-143: a record with a truthy (non-empty)
`'brand'` value contributes its parsed price; a missing `'price'` key or an
unparseable price raises (`none`). -/
def brandPricesOpt (products : List LProduct) :
    Option (List (PyStr × List ℚ)) :=
  products.foldlM (fun acc p =>
    match p.brand with
    | none => some acc
    | some b =>
      if b = [] then some acc
      else
        match p.price with
        | none => none
        | some ps => (legacyPrice ps).map (fun q => addBrandPrice b q acc)) []

/-- Embedding of `analyze_market_data` (src/parser.py:88-165).  Segments use
the min/max ± 30%-of-range formulas; all values are stored unrounded.
`none` models an uncaught exception. -/
def analyze_market_data (products : List LProduct) : Option LAnalysis :=
  if products = [] then some empty_analysis
  else
    match legacyPricesOpt products with
    | none => none
    | some prices =>
      if prices = [] then some empty_analysis
      else
        match brandPricesOpt products with
        | none => none
        | some bp =>
          let mn := pyMin prices
          let mx := pyMax prices
          let range := qsub mx mn
          let budget := qadd mn (qmul range (mkRat 3 10))
          let premium := qsub mx (qmul range (mkRat 3 10))
          some
            { market_stats :=
                { average_price := pyMean prices
                  median_price := pyMedian prices
                  price_min := mn
                  price_max := mx }
              price_segments :=
                { budget := budget
                  mid_range := qdiv (qadd budget premium) (mkRat 2 1)
                  premium := premium }
              brand_averages := bp.map (fun x => (x.1, pyMean x.2)) }

/-- Strategic line emitted when the median exceeds the mean (parser.py:199). -/
def premiumPricingLine : PyStr :=
  "• The market shows premium pricing opportunities, consider positioning in the upper segments".data

/-- Strategic line emitted when the median does not exceed the mean
(parser.py:201). -/
def priceSensitiveLine : PyStr :=
  "• The market is price-sensitive, consider competitive pricing strategies".data

/-- Strategic line for a wide price range (parser.py:206). -/
def wideRangeLine : PyStr :=
  "• Wide price range indicates diverse market segments, consider multi-tier pricing".data

/-- Strategic line for a narrow price range (parser.py:208). -/
def narrowRangeLine : PyStr :=
  "• Narrow price range suggests standardized pricing, focus on value-added features".data

/-- Embedding of `generate_recommendations` (src/parser.py:167-210):
overview, segments, top-5 brands by descending average price, then exactly
one of the premium/price-sensitive lines and one of the wide/narrow lines. -/
def generate_recommendations (a : LAnalysis) : List PyStr :=
  ["\nMarket Overview".data,
   "• The average price in the market is £".data ++ format2f a.market_stats.average_price,
   "• The median price is £".data ++ format2f a.market_stats.median_price,
   "• Prices range from £".data ++ format2f a.market_stats.price_min ++
     " to £".data ++ format2f a.market_stats.price_max,
   "\nPrice Segments".data,
   "• Budget segment: Below £".data ++ format2f a.price_segments.budget,
   "• Mid-range segment: Around £".data ++ format2f a.price_segments.mid_range,
   "• Premium segment: Above £".data ++ format2f a.price_segments.premium] ++
  (if a.brand_averages ≠ [] then
     "\nBrand Insights".data ::
       ((sortDescBy a.brand_averages).take 5).map (fun bp =>
         "• ".data ++ bp.1 ++ ": Average price £".data ++ format2f bp.2)
   else []) ++
  ["\nStrategic Recommendations".data] ++
  [if a.market_stats.average_price < a.market_stats.median_price then
     premiumPricingLine else priceSensitiveLine] ++
  [if a.market_stats.average_price <
      qsub a.market_stats.price_max a.market_stats.price_min then
     wideRangeLine else narrowRangeLine]

end LegacyParser

namespace ScraperEnhanced

/-- The accumulation loop of `split_dom_content`
(src/scraper_enhanced.py:460-472): `cur` is the pending `current_chunk`
(lines in order), `curLen` the pending `current_length` (sum of line lengths;
the newline separators reinserted by `'\n'.join` are not counted). -/
def chunkGo (maxLen : Nat) : List PyStr → List PyStr → Nat → List (List PyStr)
  | [], cur, _ => if cur = [] then [] else [cur]
  | line :: rest, cur, curLen =>
    if maxLen < curLen + line.length ∧ cur ≠ [] then
      cur :: chunkGo maxLen rest [line] line.length
    else
      chunkGo maxLen rest (cur ++ [line]) (curLen + line.length)

/-- The chunker on an already-split list of lines. -/
def chunkLines (maxLen : Nat) (lines : List PyStr) : List (List PyStr) :=
  chunkGo maxLen lines [] 0

/-- Model of Python `s.split(c)` for a single-character separator. -/
def splitOnChar (c : Char) : PyStr → List PyStr
  | [] => [[]]
  | x :: xs =>
    if x = c then [] :: splitOnChar c xs
    else
      match splitOnChar c xs with
      | g :: gs => (x :: g) :: gs
      | [] => [[x]]

/-- Model of Python `sep.join(parts)`. -/
def joinSep (sep : PyStr) : List PyStr → PyStr
  | [] => []
  | [x] => x
  | x :: y :: xs => x ++ sep ++ joinSep sep (y :: xs)

/-- Embedding of `split_dom_content` (src/scraper_enhanced.py:452-477):
split the content on newlines, accumulate lines until adding the next one
would push the accumulated line-length sum past `max_length`, flushing each
accumulated group re-joined with `'\n'`.  (The `except` fallback of the
source is unreachable: the loop body raises no exception.) -/
def split_dom_content (dom_content : PyStr) (max_length : Nat) : List PyStr :=
  (chunkLines max_length (splitOnChar '\n' dom_content)).map (joinSep ['\n'])

end ScraperEnhanced

/-- One listing node of a search-results page, as seen through
`select_one`/`query_selector`: each field is the text of the corresponding
element (`title`, `price`, `condition`), or the `href` for `link`; `none`
models a missing element. -/
structure Node where
  title : Option PyStr
  price : Option PyStr
  link : Option PyStr
  condition : Option PyStr
deriving DecidableEq

/-- One emitted item dict (title, price text, condition text, link). -/
structure Item where
  title : PyStr
  price : PyStr
  condition : PyStr
  link : PyStr
deriving DecidableEq

namespace Scraper

/-- The per-node body of `EbayScraper._parse_items` (src/scraper.py:112-141):
skip the node unless title, price and link elements are all present; strip
the title and skip the `'shop on ebay'` placeholder (case-insensitively);
a missing condition element becomes `"Not specified"`. -/
def extractNode (nd : Node) : Option Item :=
  match nd.title, nd.price, nd.link with
  | some t, some p, some l =>
    let title := pyStrip t
    if pyLower title = "shop on ebay".data then none
    else
      some { title := title, price := pyStrip p,
             condition := (nd.condition.map pyStrip).getD "Not specified".data,
             link := l }
  | _, _, _ => none

/-- Embedding of `EbayScraper._parse_items` (src/scraper.py:107-143): scan
the first `limit` result nodes in source order, emitting the extractable
ones. -/
def parse_items (nodes : List Node) (limit : Nat) : List Item :=
  (nodes.take limit).filterMap extractNode

end Scraper

namespace App

/-- The per-node body of `scrape_ebay` (src/app.py:55-72): no field is
required and no placeholder is filtered — missing elements are replaced by
the defaults `"No title"` / `"No price"` / `"Not specified"` / `"#"` and the
record is always emitted. -/
def appExtract (nd : Node) : Item :=
  { title := nd.title.getD "No title".data
    price := nd.price.getD "No price".data
    condition := nd.condition.getD "Not specified".data
    link := nd.link.getD "#".data }

/-- Embedding of the extraction loop of `scrape_ebay` (src/app.py:39-78):
one record per listing node, up to `max_results`. -/
def scrape_ebay_items (listings : List Node) (max_results : Nat) : List Item :=
  (listings.take max_results).map appExtract

end App

/-! ## Concrete inputs used by counterexamples and witnesses -/

/-- Three legacy records priced 10, 10, 40 (mean 20, midpoint of extremes 25). -/
def demoLegacyProducts : List LegacyParser.LProduct :=
  [{ price := some "10".data, brand := none },
   { price := some "10".data, brand := none },
   { price := some "40".data, brand := none }]

/-- Three records priced £10/£20/£30 for the enhanced analyzer. -/
def demoProducts3 : List MarketAnalyzer.Product :=
  [{ price := some "£10.00".data, brand := none },
   { price := some "£20.00".data, brand := none },
   { price := some "£30.00".data, brand := none }]

/-- A single priced record (£50), exercising the spread fallback. -/
def demoProducts1 : List MarketAnalyzer.Product :=
  [{ price := some "£50.00".data, brand := none }]

/-- The end-to-end scenario of spec §8: prices £100.00, £200.00 and an
unparseable "Not specified". -/
def demoProductsE2E : List MarketAnalyzer.Product :=
  [{ price := some "£100.00".data, brand := none },
   { price := some "£200.00".data, brand := none },
   { price := some "Not specified".data, brand := none }]

/-- An analysis whose median (10) exceeds its mean (7). -/
def demoAnalysisMedGtMean : MarketAnalyzer.Analysis :=
  { market_stats :=
      { average_price := 7, median_price := 10, price_std := 2
        price_min := 1, price_max := 10 }
    brand_averages := []
    price_segments := { budget := 5, mid_range := 7, premium := 9 } }

/-- A complete listing node. -/
def demoNodeOk : Node :=
  { title := some "  iPhone 13  ".data, price := some "£99.99".data
    link := some "http".data, condition := none }

/-- A placeholder listing node with no price and no link. -/
def demoNodeBare : Node :=
  { title := some "Shop on eBay".data, price := none
    link := none, condition := none }

/-! ## Helper lemmas -/

theorem removeFirstOcc_zero (c : Char) (l : PyStr) : removeFirstOcc c 0 l = l := by
  cases l <;> rfl

theorem removeFirstOcc_cons_of_ne (c x : Char) (h : x ≠ c) (n : Nat) (l : PyStr) :
    removeFirstOcc c n (x :: l) = x :: removeFirstOcc c n l := by
  cases n with
  | zero => rw [removeFirstOcc_zero, removeFirstOcc_zero]
  | succ n => simp [removeFirstOcc, h]

theorem dropAllButLast_of_count_le_one (c : Char) (l : PyStr) (h : l.count c ≤ 1) :
    dropAllButLast c l = l := by
  induction l with
  | nil => rfl
  | cons x xs ih =>
    by_cases hx : x = c
    · subst hx
      have hcc := List.count_cons_self x xs
      have h0 : xs.count x = 0 := by omega
      have hnm : x ∉ xs := List.count_eq_zero.mp h0
      rw [dropAllButLast, if_neg (by simp [hnm]), ih (by omega)]
    · have hc : (x :: xs).count c = xs.count c := by
        simp [List.count_cons, Ne.symm hx]
      rw [dropAllButLast, if_neg (by simp [hx]), ih (by omega)]

theorem removeFirstOcc_count_pred (c : Char) :
    ∀ l : PyStr, removeFirstOcc c (l.count c - 1) l = dropAllButLast c l := by
  intro l
  induction l with
  | nil => rfl
  | cons x xs ih =>
    by_cases hx : x = c
    · subst hx
      rw [List.count_cons_self, Nat.add_sub_cancel]
      by_cases hm : x ∈ xs
      · have h1 : 0 < xs.count x := List.count_pos_iff.mpr hm
        obtain ⟨k, hk⟩ : ∃ k, xs.count x = k + 1 := ⟨xs.count x - 1, by omega⟩
        rw [hk, removeFirstOcc, if_pos rfl, show k = xs.count x - 1 by omega, ih,
          dropAllButLast, if_pos ⟨rfl, hm⟩]
      · have h0 : xs.count x = 0 := List.count_eq_zero.mpr hm
        rw [h0, removeFirstOcc_zero, dropAllButLast, if_neg (by simp [hm]),
          dropAllButLast_of_count_le_one _ _ (by omega)]
    · have hc : (x :: xs).count c = xs.count c := by
        simp [List.count_cons, Ne.symm hx]
      rw [hc, removeFirstOcc_cons_of_ne c x hx, ih, dropAllButLast,
        if_neg (by simp [hx])]

theorem collapseDots_eq_spec (s : PyStr) :
    PriceParser.collapseDots s = collapseDotsSpec s := by
  rw [PriceParser.collapseDots, collapseDotsSpec]
  by_cases h : s.count '.' > 1
  · rw [if_pos h, if_pos h, removeFirstOcc_count_pred]
  · rw [if_neg h, if_neg h]

/-! ## C1 -/

/-- C1: the price normalizer applies the spec's rules in order — empty or
placeholder text is unparseable; a range "X to Y" parses as X; characters
other than digits and decimal points are stripped; of several decimal points
only the last is kept; an empty or unparseable remainder is unparseable,
otherwise the parsed amount — and the four quoted examples hold
(`mkRat 123450 100` is 1234.50). -/
theorem price_normalizer_follows_spec_rules :
    (∀ s : PyStr, PriceParser.extract_numeric_price s = normalize_spec s) ∧
    PriceParser.extract_numeric_price "£1,234.50".data = some (mkRat 123450 100) ∧
    PriceParser.extract_numeric_price "£10 to £20".data = some 10 ∧
    PriceParser.extract_numeric_price "Not specified".data = none ∧
    PriceParser.extract_numeric_price "".data = none := by
  refine ⟨?_, by decide, by decide, by decide, by decide⟩
  intro s
  rw [PriceParser.extract_numeric_price, normalize_spec]
  by_cases h1 : pyStrip s = [] ∨ s = "Not specified".data
  · rw [if_pos ?_, if_pos h1]
    rcases h1 with h | h
    · exact Or.inr (Or.inr h)
    · exact Or.inr (Or.inl h)
  · have h1' : ¬(s = [] ∨ s = "Not specified".data ∨ pyStrip s = []) := by
      rintro (rfl | h | h)
      · exact h1 (Or.inl rfl)
      · exact h1 (Or.inr h)
      · exact h1 (Or.inl h)
    rw [if_neg h1', if_neg h1, collapseDots_eq_spec]
    by_cases hn : collapseDotsSpec (PriceParser.stripNonNumeric (PriceParser.rangeCut s)) = []
    · rw [hn]; rfl
    · rw [if_pos hn, if_neg hn]

namespace ScraperEnhanced

theorem chunkGo_ne_nil (m : Nat) :
    ∀ (lines : List PyStr) (cur : List PyStr) (curLen : Nat) (c : List PyStr),
    c ∈ chunkGo m lines cur curLen → c ≠ [] := by
  intro lines
  induction lines with
  | nil =>
    intro cur curLen c hc
    rw [chunkGo] at hc
    by_cases h : cur = []
    · simp [h] at hc
    · rw [if_neg h] at hc
      simp at hc
      exact hc ▸ h
  | cons line rest ih =>
    intro cur curLen c hc
    rw [chunkGo] at hc
    by_cases h : m < curLen + line.length ∧ cur ≠ []
    · rw [if_pos h] at hc
      rcases List.mem_cons.mp hc with rfl | hc
      · exact h.2
      · exact ih _ _ _ hc
    · rw [if_neg h] at hc
      exact ih _ _ _ hc

theorem chunkGo_flatten (m : Nat) :
    ∀ (lines : List PyStr) (cur : List PyStr) (curLen : Nat),
    (chunkGo m lines cur curLen).flatten = cur ++ lines := by
  intro lines
  induction lines with
  | nil =>
    intro cur curLen
    rw [chunkGo]
    by_cases h : cur = [] <;> simp [h]
  | cons line rest ih =>
    intro cur curLen
    rw [chunkGo]
    by_cases h : m < curLen + line.length ∧ cur ≠ []
    · rw [if_pos h]
      simp [ih]
    · rw [if_neg h]
      simp [ih]

theorem chunkGo_bound (m : Nat) :
    ∀ (lines : List PyStr) (cur : List PyStr) (curLen : Nat),
    curLen = (cur.map List.length).sum → (2 ≤ cur.length → curLen ≤ m) →
    ∀ c ∈ chunkGo m lines cur curLen,
      c.length = 1 ∨ (c.map List.length).sum ≤ m := by
  intro lines
  induction lines with
  | nil =>
    intro cur curLen hsum hinv c hc
    rw [chunkGo] at hc
    by_cases h : cur = []
    · simp [h] at hc
    · rw [if_neg h] at hc
      simp at hc
      subst hc
      rcases Nat.lt_or_ge c.length 2 with h2 | h2
      · left
        have := List.length_pos.mpr h
        omega
      · right
        rw [← hsum]
        exact hinv h2
  | cons line rest ih =>
    intro cur curLen hsum hinv c hc
    rw [chunkGo] at hc
    by_cases h : m < curLen + line.length ∧ cur ≠ []
    · rw [if_pos h] at hc
      rcases List.mem_cons.mp hc with rfl | hc
      · rcases Nat.lt_or_ge c.length 2 with h2 | h2
        · left
          have := List.length_pos.mpr h.2
          omega
        · right
          rw [← hsum]
          exact hinv h2
      · exact ih [line] line.length (by simp) (by simp) c hc
    · rw [if_neg h] at hc
      refine ih (cur ++ [line]) (curLen + line.length) (by simp [hsum]) ?_ c hc
      intro h2
      by_cases hcur : cur = []
      · subst hcur
        simp at h2
      · have hle : ¬ (m < curLen + line.length) := fun hlt => h ⟨hlt, hcur⟩
        omega

theorem joinSep_cons_of_ne_nil (sep x : PyStr) (l : List PyStr) (h : l ≠ []) :
    joinSep sep (x :: l) = x ++ sep ++ joinSep sep l := by
  cases l with
  | nil => exact absurd rfl h
  | cons y ys => rfl

theorem joinSep_append (sep : PyStr) :
    ∀ (a b : List PyStr), a ≠ [] → b ≠ [] →
    joinSep sep (a ++ b) = joinSep sep a ++ sep ++ joinSep sep b := by
  intro a
  induction a with
  | nil => intro b h _; exact absurd rfl h
  | cons x a' ih =>
    intro b _ hb
    by_cases ha' : a' = []
    · subst ha'
      rw [List.singleton_append, joinSep_cons_of_ne_nil sep x b hb]
      rfl
    · rw [List.cons_append, joinSep_cons_of_ne_nil sep x (a' ++ b) (by simp [ha']),
        joinSep_cons_of_ne_nil sep x a' ha', ih b ha' hb]
      simp [List.append_assoc]

theorem joinSep_flatten (sep : PyStr) :
    ∀ (gs : List (List PyStr)), (∀ g ∈ gs, g ≠ []) →
    joinSep sep (gs.map (joinSep sep)) = joinSep sep gs.flatten := by
  intro gs
  induction gs with
  | nil => intro _; rfl
  | cons g rest ih =>
    intro hne
    cases rest with
    | nil => simp [joinSep]
    | cons g' rest' =>
      have hg : g ≠ [] := hne g (by simp)
      have hg' : g' ≠ [] := hne g' (by simp)
      have hflat : (g' :: rest').flatten ≠ [] := by
        rw [List.flatten_cons]
        simp [hg']
      rw [List.map_cons, joinSep_cons_of_ne_nil sep _ _ (by simp),
        ih (fun x hx => hne x (List.mem_cons_of_mem _ hx))]
      conv_rhs => rw [List.flatten_cons]
      rw [joinSep_append sep g _ hg hflat]

theorem splitOnChar_ne_nil (c : Char) : ∀ s : PyStr, splitOnChar c s ≠ [] := by
  intro s
  induction s with
  | nil => simp [splitOnChar]
  | cons x xs ih =>
    rw [splitOnChar]
    by_cases h : x = c
    · simp [h]
    · rw [if_neg h]
      cases hxs : splitOnChar c xs with
      | nil => simp
      | cons g gs => simp

theorem joinSep_splitOnChar (c : Char) : ∀ s : PyStr, joinSep [c] (splitOnChar c s) = s := by
  intro s
  induction s with
  | nil => rfl
  | cons x xs ih =>
    rw [splitOnChar]
    by_cases h : x = c
    · subst h
      rw [if_pos rfl, joinSep_cons_of_ne_nil [x] [] _ (splitOnChar_ne_nil x xs), ih]
      rfl
    · rw [if_neg h]
      cases hxs : splitOnChar c xs with
      | nil => exact absurd hxs (splitOnChar_ne_nil c xs)
      | cons g gs =>
        rw [hxs] at ih
        cases gs with
        | nil =>
          simp [joinSep] at ih ⊢
          exact ih
        | cons g' gs' =>
          rw [joinSep_cons_of_ne_nil [c] (x :: g) _ (by simp), ← ih,
            joinSep_cons_of_ne_nil [c] g _ (by simp)]
          simp

end ScraperEnhanced

/-! ## C3 -/

/-- C3 (counterexample to the claim as stated): on input `"a\nb\nc\nd\ne\nf"`
with maximum chunk size 5, the chunker's first chunk is `"a\nb\nc\nd\ne"`, a
string of length 9 > 5 that is not a single irreducible unit (it is not one
of the input's lines): the loop counts only the lines' lengths, not the
newline separators reinserted by the join. -/
theorem chunker_size_bound_counterexample :
    (ScraperEnhanced.split_dom_content "a\nb\nc\nd\ne\nf".data 5).head? =
      some "a\nb\nc\nd\ne".data ∧
    ("a\nb\nc\nd\ne".data : PyStr).length = 9 ∧ ¬ (9 ≤ 5) ∧
    "a\nb\nc\nd\ne".data ∉ ScraperEnhanced.splitOnChar '\n' "a\nb\nc\nd\ne\nf".data := by
  decide

theorem chunkGo_mem_lines (m : Nat) (lines : List PyStr) (cur : List PyStr)
    (curLen : Nat) (ls : List PyStr) (l : PyStr)
    (hls : ls ∈ ScraperEnhanced.chunkGo m lines cur curLen) (hl : l ∈ ls) :
    l ∈ cur ++ lines := by
  rw [← ScraperEnhanced.chunkGo_flatten m lines cur curLen]
  exact List.mem_flatten.mpr ⟨ls, hls, hl⟩

/-- C3 (amended): the i-th chunk the chunker emits is the newline-join of
the i-th group of lines the accumulation loop formed; each group is
non-empty, all its members are lines of the input, and its total line
length (excluding the rejoined separators) is at most the maximum — or the
group is a single input line, emitted verbatim (never truncated) even when
it alone exceeds the maximum. -/
theorem chunker_unit_sum_bound :
    ∀ (s : PyStr) (m : Nat) (i : Nat) (c : PyStr),
    (ScraperEnhanced.split_dom_content s m)[i]? = some c →
    ∃ ls : List PyStr,
      (ScraperEnhanced.chunkLines m (ScraperEnhanced.splitOnChar '\n' s))[i]? = some ls ∧
      c = ScraperEnhanced.joinSep ['\n'] ls ∧ ls ≠ [] ∧
      (∀ l ∈ ls, l ∈ ScraperEnhanced.splitOnChar '\n' s) ∧
      ((ls.map List.length).sum ≤ m ∨
        ∃ l, ls = [l] ∧ l ∈ ScraperEnhanced.splitOnChar '\n' s) := by
  intro s m i c h
  rw [ScraperEnhanced.split_dom_content, List.getElem?_map] at h
  obtain ⟨ls, hget, hc⟩ := Option.map_eq_some'.mp h
  have hmem : ls ∈ ScraperEnhanced.chunkLines m (ScraperEnhanced.splitOnChar '\n' s) := by
    obtain ⟨hlt, heq⟩ := List.getElem?_eq_some_iff.mp hget
    exact heq ▸ List.getElem_mem hlt
  have hlines : ∀ l ∈ ls, l ∈ ScraperEnhanced.splitOnChar '\n' s := by
    intro l hl
    have := chunkGo_mem_lines m (ScraperEnhanced.splitOnChar '\n' s) [] 0 ls l hmem hl
    simpa using this
  refine ⟨ls, hget, hc.symm, ScraperEnhanced.chunkGo_ne_nil m _ [] 0 ls hmem, hlines, ?_⟩
  rcases ScraperEnhanced.chunkGo_bound m _ [] 0 rfl (fun h2 => by simp at h2) ls hmem
    with h1 | h1
  · obtain ⟨l, rfl⟩ := List.length_eq_one.mp h1
    exact Or.inr ⟨l, rfl, hlines l (by simp)⟩
  · exact Or.inl h1

/-- Witness for `chunker_unit_sum_bound` at the concrete input `"ab"`, 5,
chunk index 0. -/
theorem chunker_unit_sum_bound_witness :
    (ScraperEnhanced.split_dom_content "ab".data 5)[0]? = some "ab".data ∧
    ∃ ls : List PyStr,
      (ScraperEnhanced.chunkLines 5 (ScraperEnhanced.splitOnChar '\n' "ab".data))[0]? = some ls ∧
      "ab".data = ScraperEnhanced.joinSep ['\n'] ls ∧ ls ≠ [] ∧
      (∀ l ∈ ls, l ∈ ScraperEnhanced.splitOnChar '\n' "ab".data) ∧
      ((ls.map List.length).sum ≤ 5 ∨
        ∃ l, ls = [l] ∧ l ∈ ScraperEnhanced.splitOnChar '\n' "ab".data) :=
  ⟨by decide, chunker_unit_sum_bound "ab".data 5 0 "ab".data (by decide)⟩

/-- Re-joining `scraper_enhanced.split_dom_content`'s chunks with the
separator the chunker itself uses (`'\n'`) reproduces the original input
text exactly, for every input text and every maximum size.  (The claim that
quotes this property also covers scraper.py's HTML-based `split_dom_content`,
which extracts element texts through BeautifulSoup and is outside this
embedding, so this theorem settles only the text-based variant.) -/
theorem chunker_rejoin_identity :
    ∀ (s : PyStr) (m : Nat),
    ScraperEnhanced.joinSep ['\n'] (ScraperEnhanced.split_dom_content s m) = s := by
  intro s m
  rw [ScraperEnhanced.split_dom_content, ScraperEnhanced.chunkLines,
    ScraperEnhanced.joinSep_flatten ['\n'] _
      (fun g hg => ScraperEnhanced.chunkGo_ne_nil m _ [] 0 g hg),
    ScraperEnhanced.chunkGo_flatten m _ [] 0, List.nil_append,
    ScraperEnhanced.joinSep_splitOnChar '\n' s]

/-! ## C5 -/

theorem extractNode_eq_some (nd : Node) (r : Item)
    (h : Scraper.extractNode nd = some r) :
    nd.title.isSome ∧ nd.price.isSome ∧ nd.link.isSome ∧
    pyLower r.title ≠ "shop on ebay".data := by
  rcases nd with ⟨t, p, l, cnd⟩
  cases t with
  | none => simp [Scraper.extractNode] at h
  | some t =>
    cases p with
    | none => simp [Scraper.extractNode] at h
    | some p =>
      cases l with
      | none => simp [Scraper.extractNode] at h
      | some l =>
        rw [Scraper.extractNode] at h
        dsimp only at h
        by_cases hsh : pyLower (pyStrip t) = "shop on ebay".data
        · rw [if_pos hsh] at h
          cases h
        · rw [if_neg hsh] at h
          injection h with h
          subst h
          exact ⟨rfl, rfl, rfl, hsh⟩

/-- C5 (amended, for the requests-based scraper `EbayScraper._parse_items`):
at most `limit` records, emitted in source order (a sublist of the full
extraction), and every emitted record comes from a node with title, price
and link elements all present and has a trimmed title that is not
(case-insensitively) the placeholder "Shop on eBay". -/
theorem scraper_extraction_guarantees :
    ∀ (nodes : List Node) (limit : Nat),
    (Scraper.parse_items nodes limit).length ≤ limit ∧
    (Scraper.parse_items nodes limit).Sublist (nodes.filterMap Scraper.extractNode) ∧
    ∀ r ∈ Scraper.parse_items nodes limit,
      pyLower r.title ≠ "shop on ebay".data ∧
      ∃ nd ∈ nodes, nd.title.isSome ∧ nd.price.isSome ∧ nd.link.isSome ∧
        Scraper.extractNode nd = some r := by
  intro nodes limit
  refine ⟨?_, (List.take_sublist limit nodes).filterMap _, ?_⟩
  · calc (Scraper.parse_items nodes limit).length
        ≤ (nodes.take limit).length := List.length_filterMap_le _ _
      _ ≤ limit := List.length_take_le _ _
  · intro r hr
    rw [Scraper.parse_items] at hr
    obtain ⟨nd, hnd, hext⟩ := List.mem_filterMap.mp hr
    obtain ⟨ht, hp, hl, hsh⟩ := extractNode_eq_some nd r hext
    exact ⟨hsh, nd, List.mem_of_mem_take hnd, ht, hp, hl, hext⟩

/-- Witness for `scraper_extraction_guarantees` on two concrete nodes. -/
theorem scraper_extraction_guarantees_witness :
    (Scraper.parse_items [demoNodeOk, demoNodeBare] 10).length ≤ 10 ∧
    ({ title := "iPhone 13".data, price := "£99.99".data
       condition := "Not specified".data, link := "http".data } : Item) ∈
      Scraper.parse_items [demoNodeOk, demoNodeBare] 10 ∧
    pyLower ("iPhone 13".data) ≠ "shop on ebay".data := by
  refine ⟨(scraper_extraction_guarantees [demoNodeOk, demoNodeBare] 10).1, ?_, ?_⟩
  · decide
  · exact ((scraper_extraction_guarantees [demoNodeOk, demoNodeBare] 10).2.2
      { title := "iPhone 13".data, price := "£99.99".data
        condition := "Not specified".data, link := "http".data } (by decide)).1

/-- C5 (counterexample to the claim as stated): the FastAPI extractor
`scrape_ebay` (src/app.py), cited by the claim, emits a record for a node
that has no price element and no link element and whose title is the
placeholder "Shop on eBay" — it substitutes defaults instead of skipping. -/
theorem app_extraction_no_guard_counterexample :
    demoNodeBare.price = none ∧ demoNodeBare.link = none ∧
    pyLower (pyStrip (demoNodeBare.title.getD [])) = "shop on ebay".data ∧
    App.scrape_ebay_items [demoNodeBare] 5 =
      [{ title := "Shop on eBay".data, price := "No price".data
         condition := "Not specified".data, link := "#".data }] := by
  decide

/-! ## C6 -/

theorem format2f_getLast (q : ℚ) :
    (format2f q).getLast? = some (Nat.digitChar
      ((Int.fdiv (200 * q.num + q.den) (2 * q.den)).natAbs % 10)) :=
  List.getLast?_concat _

theorem digitChar_isDigit (d : Nat) (h : d < 10) : (Nat.digitChar d).isDigit = true := by
  interval_cases d <;> decide

theorem ne_append_format2f (x : PyStr) (hx : x.getLast?.map Char.isDigit = some false)
    (pre : PyStr) (q : ℚ) : pre ++ format2f q ≠ x := by
  intro h
  have h3 : (pre ++ format2f q).getLast? = some (Nat.digitChar
      ((Int.fdiv (200 * q.num + q.den) (2 * q.den)).natAbs % 10)) := by
    rw [List.getLast?_append, format2f_getLast]
    rfl
  rw [h] at h3
  rw [h3] at hx
  simp only [Option.map_some'] at hx
  have := digitChar_isDigit ((Int.fdiv (200 * q.num + q.den) (2 * q.den)).natAbs % 10)
    (Nat.mod_lt _ (by norm_num))
  rw [this] at hx
  cases hx

theorem mem_generate_recommendations_elim (a : LegacyParser.LAnalysis) (x : PyStr)
    (hlast : x.getLast?.map Char.isDigit = some false)
    (h1 : x ≠ "\nMarket Overview".data) (h2 : x ≠ "\nPrice Segments".data)
    (h3 : x ≠ "\nBrand Insights".data) (h4 : x ≠ "\nStrategic Recommendations".data)
    (hmem : x ∈ LegacyParser.generate_recommendations a) :
    x = (if a.market_stats.average_price < a.market_stats.median_price then
          LegacyParser.premiumPricingLine else LegacyParser.priceSensitiveLine) ∨
    x = (if a.market_stats.average_price <
            qsub a.market_stats.price_max a.market_stats.price_min then
          LegacyParser.wideRangeLine else LegacyParser.narrowRangeLine) := by
  rw [LegacyParser.generate_recommendations] at hmem
  simp only [List.mem_append, List.mem_cons, List.not_mem_nil, or_false,
    List.mem_singleton] at hmem
  rcases hmem with ((((h | h | h | h | h | h | h | h) | hB) | hC) | hD) | hE
  · exact absurd h h1
  · exact absurd h.symm (ne_append_format2f x hlast _ _)
  · exact absurd h.symm (ne_append_format2f x hlast _ _)
  · exact absurd h.symm (ne_append_format2f x hlast _ _)
  · exact absurd h h2
  · exact absurd h.symm (ne_append_format2f x hlast _ _)
  · exact absurd h.symm (ne_append_format2f x hlast _ _)
  · exact absurd h.symm (ne_append_format2f x hlast _ _)
  · by_cases hbr : a.brand_averages ≠ []
    · rw [if_pos hbr] at hB
      rcases List.mem_cons.mp hB with h | h
      · exact absurd h h3
      · obtain ⟨bp, _, hbp⟩ := List.mem_map.mp h
        exact absurd hbp (ne_append_format2f x hlast _ _)
    · rw [if_neg hbr] at hB
      exact absurd hB (List.not_mem_nil x)
  · exact absurd hC h4
  · exact Or.inl hD
  · exact Or.inr hE

theorem legacy_premium_mem (a : LegacyParser.LAnalysis)
    (h : a.market_stats.average_price < a.market_stats.median_price) :
    LegacyParser.premiumPricingLine ∈ LegacyParser.generate_recommendations a := by
  rw [LegacyParser.generate_recommendations]
  refine List.mem_append_left _ (List.mem_append_right _ ?_)
  rw [if_pos h]
  exact List.mem_singleton_self _

theorem legacy_sensitive_mem (a : LegacyParser.LAnalysis)
    (h : ¬ a.market_stats.average_price < a.market_stats.median_price) :
    LegacyParser.priceSensitiveLine ∈ LegacyParser.generate_recommendations a := by
  rw [LegacyParser.generate_recommendations]
  refine List.mem_append_left _ (List.mem_append_right _ ?_)
  rw [if_neg h]
  exact List.mem_singleton_self _

/-- C6 (amended, for parser.py's `generate_recommendations`): the output
contains the "premium pricing opportunities" line iff median > mean, and the
"price-sensitive" line iff median ≤ mean — mutually exclusive, exactly one
present.  (The enhanced generator in parser_enhanced.py emits neither line;
see the counterexample.) -/
theorem legacy_recommendations_strategic_iff :
    ∀ a : LegacyParser.LAnalysis,
    (LegacyParser.premiumPricingLine ∈ LegacyParser.generate_recommendations a ↔
      a.market_stats.average_price < a.market_stats.median_price) ∧
    (LegacyParser.priceSensitiveLine ∈ LegacyParser.generate_recommendations a ↔
      a.market_stats.median_price ≤ a.market_stats.average_price) ∧
    ¬ (LegacyParser.premiumPricingLine ∈ LegacyParser.generate_recommendations a ∧
       LegacyParser.priceSensitiveLine ∈ LegacyParser.generate_recommendations a) := by
  intro a
  have hfwd_p : LegacyParser.premiumPricingLine ∈ LegacyParser.generate_recommendations a →
      a.market_stats.average_price < a.market_stats.median_price := by
    intro hmem
    by_contra hc
    rcases mem_generate_recommendations_elim a _ (by decide) (by decide) (by decide)
      (by decide) (by decide) hmem with h | h
    · rw [if_neg hc] at h
      exact absurd h (by decide)
    · by_cases hr : a.market_stats.average_price <
          qsub a.market_stats.price_max a.market_stats.price_min
      · rw [if_pos hr] at h
        exact absurd h (by decide)
      · rw [if_neg hr] at h
        exact absurd h (by decide)
  have hfwd_s : LegacyParser.priceSensitiveLine ∈ LegacyParser.generate_recommendations a →
      ¬ a.market_stats.average_price < a.market_stats.median_price := by
    intro hmem hc
    rcases mem_generate_recommendations_elim a _ (by decide) (by decide) (by decide)
      (by decide) (by decide) hmem with h | h
    · rw [if_pos hc] at h
      exact absurd h (by decide)
    · by_cases hr : a.market_stats.average_price <
          qsub a.market_stats.price_max a.market_stats.price_min
      · rw [if_pos hr] at h
        exact absurd h (by decide)
      · rw [if_neg hr] at h
        exact absurd h (by decide)
  refine ⟨⟨hfwd_p, legacy_premium_mem a⟩,
    ⟨fun hmem => not_lt.mp (hfwd_s hmem), fun hle => legacy_sensitive_mem a (not_lt.mpr hle)⟩,
    fun h => hfwd_s h.2 (hfwd_p h.1)⟩

/-- C6 (counterexample to the claim as stated): the enhanced generator
`RecommendationGenerator.generate_price_recommendations`, cited by the
claim, never compares median and mean: on an analysis with median 10 > mean
7 its output contains neither the premium-pricing line nor the
price-sensitive line, so "exactly one present" fails. -/
theorem enhanced_recommendations_missing_lines_counterexample :
    demoAnalysisMedGtMean.market_stats.average_price <
      demoAnalysisMedGtMean.market_stats.median_price ∧
    LegacyParser.premiumPricingLine ∉
      RecommendationGenerator.generate_price_recommendations [] (some demoAnalysisMedGtMean) ∧
    LegacyParser.priceSensitiveLine ∉
      RecommendationGenerator.generate_price_recommendations [] (some demoAnalysisMedGtMean) := by
  decide

/-- Witness for `legacy_recommendations_strategic_iff` at a concrete
analysis with median 10 > mean 7. -/
theorem legacy_recommendations_strategic_iff_witness :
    LegacyParser.premiumPricingLine ∈ LegacyParser.generate_recommendations
      { market_stats := { average_price := 7, median_price := 10, price_min := 1, price_max := 10 }
        price_segments := { budget := 3, mid_range := 5, premium := 8 }
        brand_averages := [] } :=
  ((legacy_recommendations_strategic_iff _).1).mpr (by decide)

theorem den_cast_ne_zero (a : ℚ) : ((a.den : ℚ)) ≠ 0 :=
  Nat.cast_ne_zero.mpr a.den_nz

theorem qadd_eq (a b : ℚ) : qadd a b = a + b := by
  rw [qadd, Rat.mkRat_eq_div]
  conv_rhs => rw [← Rat.num_div_den a, ← Rat.num_div_den b]
  rw [div_add_div _ _ (den_cast_ne_zero a) (den_cast_ne_zero b)]
  push_cast
  ring_nf

theorem qsub_eq (a b : ℚ) : qsub a b = a - b := by
  rw [qsub, Rat.mkRat_eq_div]
  conv_rhs => rw [← Rat.num_div_den a, ← Rat.num_div_den b]
  rw [div_sub_div _ _ (den_cast_ne_zero a) (den_cast_ne_zero b)]
  push_cast
  ring_nf

theorem qmul_eq (a b : ℚ) : qmul a b = a * b := by
  rw [qmul, Rat.mkRat_eq_div]
  conv_rhs => rw [← Rat.num_div_den a, ← Rat.num_div_den b]
  rw [div_mul_div_comm]
  push_cast
  ring_nf

theorem qdiv_eq (a b : ℚ) : qdiv a b = a / b := by
  by_cases hb : b = 0
  · subst hb
    rw [qdiv]
    simp [Rat.mkRat_eq_div]
  · have hbn : b.num ≠ 0 := Rat.num_ne_zero.mpr hb
    have ha : (a.num : ℚ) = a * a.den :=
      (div_eq_iff (den_cast_ne_zero a)).mp (Rat.num_div_den a)
    have hbq : (b.num : ℚ) = b * b.den :=
      (div_eq_iff (den_cast_ne_zero b)).mp (Rat.num_div_den b)
    rw [qdiv, Rat.mkRat_eq_div]
    have hbcast : ((b.num : ℤ) : ℚ) ≠ 0 := Int.cast_ne_zero.mpr hbn
    rcases lt_trichotomy b.num 0 with hneg | hzero | hpos
    · have hsgn : b.num.sign = -1 := Int.sign_eq_neg_one_of_neg hneg
      have habs : ((b.num.natAbs : ℕ) : ℚ) = -((b.num : ℤ) : ℚ) := by
        rw [Int.cast_natAbs]
        exact_mod_cast abs_of_neg hneg
      rw [hsgn]
      push_cast
      rw [habs, div_eq_div_iff
        (mul_ne_zero (den_cast_ne_zero a) (neg_ne_zero.mpr hbcast)) hb]
      rw [ha, hbq]
      ring
    · exact absurd hzero hbn
    · have hsgn : b.num.sign = 1 := Int.sign_eq_one_of_pos hpos
      have habs : ((b.num.natAbs : ℕ) : ℚ) = ((b.num : ℤ) : ℚ) := by
        rw [Int.cast_natAbs]
        exact_mod_cast abs_of_pos hpos
      rw [hsgn]
      push_cast
      rw [habs, div_eq_div_iff (mul_ne_zero (den_cast_ne_zero a) hbcast) hb]
      rw [ha, hbq]
      ring

theorem qsum_eq : ∀ l : List ℚ, qsum l = l.sum := by
  intro l
  induction l with
  | nil => rfl
  | cons x xs ih => rw [qsum, List.foldr_cons, ← qsum, qadd_eq, ih, List.sum_cons]

theorem mkRat_nat_one (n : ℕ) : mkRat (n : ℤ) 1 = (n : ℚ) := by
  rw [Rat.mkRat_eq_div]
  simp

theorem pyMean_eq (l : List ℚ) : pyMean l = l.sum / l.length := by
  rw [pyMean, qdiv_eq, qsum_eq, mkRat_nat_one]

theorem cast_list_sum (l : List ℚ) :
    ((l.sum : ℚ) : ℝ) = (l.map (fun x : ℚ => (x : ℝ))).sum := by
  induction l with
  | nil => simp
  | cons x xs ih => simp [ih]

theorem sampleVar_eq (l : List ℚ) :
    sampleVar l = (l.map (fun x => (x - pyMean l) ^ 2)).sum / ((l.length : ℚ) - 1) := by
  rw [sampleVar, qdiv_eq, qsum_eq, qsub_eq, mkRat_nat_one]
  congr 1
  exact congrArg List.sum
    (List.map_congr_left fun x _ => by rw [qmul_eq, qsub_eq, sq])

theorem meanR_eq_cast (l : List ℚ) : meanR l = ((pyMean l : ℚ) : ℝ) := by
  rw [meanR, pyMean_eq, Rat.cast_div, cast_list_sum]
  norm_cast

theorem stdevSpec_eq_sqrt (l : List ℚ) :
    stdevSpec l = Real.sqrt ((sampleVar l : ℚ) : ℝ) := by
  rw [stdevSpec, sampleVar_eq, Rat.cast_div]
  congr 1
  congr 1
  · rw [cast_list_sum, List.map_map]
    refine congrArg List.sum (List.map_congr_left fun x _ => ?_)
    simp only [Function.comp_apply]
    rw [meanR_eq_cast]
    push_cast
    ring
  · push_cast
    ring

theorem price_std_of_eq (l : List ℚ) :
    MarketAnalyzer.price_std_of l =
      if 2 ≤ l.length then stdevSpec l else ((pyMean l : ℚ) : ℝ) * (20 / 100) := by
  rw [MarketAnalyzer.price_std_of, stdevSpec_eq_sqrt]

theorem stdevSpec_example : stdevSpec [10, 20, 30] = 10 := by
  rw [stdevSpec_eq_sqrt, show sampleVar [10, 20, 30] = 100 from by decide,
    show ((100 : ℚ) : ℝ) = 10 ^ 2 from by norm_num, Real.sqrt_sq (by norm_num)]

theorem parseDecNum_nonneg (s : PyStr) (q : ℚ) (h : parseDecNum s = some q) : 0 ≤ q := by
  rw [parseDecNum] at h
  split at h
  · injection h with h
    subst h
    rw [Rat.mkRat_eq_div]
    positivity
  · cases h

theorem extract_numeric_price_nonneg (s : PyStr) (q : ℚ)
    (h : PriceParser.extract_numeric_price s = some q) : 0 ≤ q := by
  rw [PriceParser.extract_numeric_price] at h
  split at h
  · cases h
  · dsimp only at h
    split at h
    · exact parseDecNum_nonneg _ _ h
    · cases h

theorem annotate_nonneg (p : MarketAnalyzer.Product) :
    0 ≤ (MarketAnalyzer.annotate p).numeric_price := by
  rw [MarketAnalyzer.annotate]
  cases hext : PriceParser.extract_numeric_price (p.price.getD []) with
  | none => simp [hext]
  | some q => simpa [hext] using extract_numeric_price_nonneg _ _ hext

theorem analyze_prices_stats (products : List MarketAnalyzer.Product)
    (h : MarketAnalyzer.parsedPrices products ≠ []) :
    (MarketAnalyzer.analyze_prices products).2 =
      { market_stats :=
          { average_price := round2 (pyMean (MarketAnalyzer.parsedPrices products))
            median_price := round2 (pyMedian (MarketAnalyzer.parsedPrices products))
            price_std := round2R (MarketAnalyzer.price_std_of (MarketAnalyzer.parsedPrices products))
            price_min := round2 (pyMin (MarketAnalyzer.parsedPrices products))
            price_max := round2 (pyMax (MarketAnalyzer.parsedPrices products)) }
        brand_averages := MarketAnalyzer.calculate_brand_averages
          (products.map MarketAnalyzer.annotate)
        price_segments :=
          { budget := round2R (max 0 ((pyMean (MarketAnalyzer.parsedPrices products) : ℝ) -
              MarketAnalyzer.price_std_of (MarketAnalyzer.parsedPrices products)))
            mid_range := round2 (pyMean (MarketAnalyzer.parsedPrices products))
            premium := round2R ((pyMean (MarketAnalyzer.parsedPrices products) : ℝ) +
              MarketAnalyzer.price_std_of (MarketAnalyzer.parsedPrices products)) } } := by
  have hprod : products ≠ [] := by
    intro hp
    exact h (by rw [hp]; rfl)
  rw [MarketAnalyzer.analyze_prices, if_neg hprod, if_neg h]

theorem analyze_prices_fst (products : List MarketAnalyzer.Product)
    (h : MarketAnalyzer.parsedPrices products ≠ []) :
    (MarketAnalyzer.analyze_prices products).1 = products.map MarketAnalyzer.annotate := by
  have hprod : products ≠ [] := by
    intro hp
    exact h (by rw [hp]; rfl)
  rw [MarketAnalyzer.analyze_prices, if_neg hprod, if_neg h]

/-! ## C2 -/

/-- C2 (amended, for the enhanced analyzer `MarketAnalyzer.analyze_prices`):
for every record set with at least one parsed price, the price segments are
budget = max(0, mean − spread), mid = mean and premium = mean + spread over
the parsed prices — each stored rounded to two decimals, as the code does at
the output boundary.  (parser.py's `analyze_market_data`, also cited by the
claim, instead uses min/max ± 30% of the range; see the counterexample.) -/
theorem enhanced_segments_mean_spread :
    ∀ products : List MarketAnalyzer.Product,
    MarketAnalyzer.parsedPrices products ≠ [] →
    (MarketAnalyzer.analyze_prices products).2.price_segments.budget =
      round2R (max 0 ((pyMean (MarketAnalyzer.parsedPrices products) : ℝ) -
        MarketAnalyzer.price_std_of (MarketAnalyzer.parsedPrices products))) ∧
    (MarketAnalyzer.analyze_prices products).2.price_segments.mid_range =
      round2 (pyMean (MarketAnalyzer.parsedPrices products)) ∧
    (MarketAnalyzer.analyze_prices products).2.price_segments.premium =
      round2R ((pyMean (MarketAnalyzer.parsedPrices products) : ℝ) +
        MarketAnalyzer.price_std_of (MarketAnalyzer.parsedPrices products)) := by
  intro products h
  rw [analyze_prices_stats products h]
  exact ⟨rfl, rfl, rfl⟩

/-- Witness for `enhanced_segments_mean_spread` at three priced records. -/
theorem enhanced_segments_mean_spread_witness :
    MarketAnalyzer.parsedPrices demoProducts3 ≠ [] ∧
    (MarketAnalyzer.analyze_prices demoProducts3).2.price_segments.mid_range =
      round2 (pyMean (MarketAnalyzer.parsedPrices demoProducts3)) :=
  ⟨by decide, (enhanced_segments_mean_spread demoProducts3 (by decide)).2.1⟩

/-- C2 (counterexample to the claim as stated): `analyze_market_data`
(src/parser.py), cited by the claim, on records priced 10, 10, 40 reports a
mid segment of 25 (the midpoint of the extremes) while the mean is 20 — so
its segmentation is not mid = mean, budget = max(0, mean − spread),
premium = mean + spread for any value of spread. -/
theorem legacy_segments_not_mean_spread_counterexample :
    (LegacyParser.analyze_market_data demoLegacyProducts).map
      (fun a => a.price_segments.mid_range) = some 25 ∧
    (LegacyParser.analyze_market_data demoLegacyProducts).map
      (fun a => a.market_stats.average_price) = some 20 ∧
    (25 : ℚ) ≠ 20 := by
  decide

/-! ## C7 -/

/-- C7: after normalization (here: on every input whose record set has at
least one parsed price, the claim's statistics premise), every record is
retained with its fields intact, its numeric price is ≥ 0, an unparseable
price text yields numeric price 0, and the mean/median/min/max statistics
are computed only over the successfully parsed prices. -/
theorem normalization_and_stats_invariants :
    ∀ products : List MarketAnalyzer.Product,
    MarketAnalyzer.parsedPrices products ≠ [] →
    ((MarketAnalyzer.analyze_prices products).1 = products.map MarketAnalyzer.annotate ∧
     (MarketAnalyzer.analyze_prices products).1.length = products.length ∧
     ∀ p ∈ (MarketAnalyzer.analyze_prices products).1,
       0 ≤ p.numeric_price ∧
       (PriceParser.extract_numeric_price (p.price.getD []) = none →
         p.numeric_price = 0)) ∧
    ((MarketAnalyzer.analyze_prices products).2.market_stats.average_price =
      round2 (pyMean (MarketAnalyzer.parsedPrices products)) ∧
     (MarketAnalyzer.analyze_prices products).2.market_stats.median_price =
      round2 (pyMedian (MarketAnalyzer.parsedPrices products)) ∧
     (MarketAnalyzer.analyze_prices products).2.market_stats.price_min =
      round2 (pyMin (MarketAnalyzer.parsedPrices products)) ∧
     (MarketAnalyzer.analyze_prices products).2.market_stats.price_max =
      round2 (pyMax (MarketAnalyzer.parsedPrices products))) := by
  intro products h
  refine ⟨⟨analyze_prices_fst products h, ?_, ?_⟩, ?_⟩
  · rw [analyze_prices_fst products h, List.length_map]
  · intro p hp
    rw [analyze_prices_fst products h] at hp
    obtain ⟨p0, _, rfl⟩ := List.mem_map.mp hp
    refine ⟨annotate_nonneg p0, fun hnone => ?_⟩
    have hpr : (MarketAnalyzer.annotate p0).price = p0.price := rfl
    rw [MarketAnalyzer.annotate]
    rw [hpr] at hnone
    simp [hnone]
  · rw [analyze_prices_stats products h]
    exact ⟨rfl, rfl, rfl, rfl⟩

/-- Witness for `normalization_and_stats_invariants` on the spec §8
end-to-end scenario (£100.00, £200.00, "Not specified"). -/
theorem normalization_and_stats_invariants_witness :
    MarketAnalyzer.parsedPrices demoProductsE2E ≠ [] ∧
    MarketAnalyzer.parsedPrices demoProductsE2E = [100, 200] ∧
    (MarketAnalyzer.analyze_prices demoProductsE2E).1.length = demoProductsE2E.length ∧
    (MarketAnalyzer.analyze_prices demoProductsE2E).2.market_stats.average_price =
      round2 (pyMean (MarketAnalyzer.parsedPrices demoProductsE2E)) :=
  ⟨by decide, by decide,
   (normalization_and_stats_invariants demoProductsE2E (by decide)).1.2.1,
   ((normalization_and_stats_invariants demoProductsE2E (by decide)).2).1⟩

/-! ## C8 -/

/-- C8: the spread stored by the market analyzer is the sample standard
deviation of the parsed prices when at least 2 priced records exist, and
20% of the mean price otherwise (rounded to two decimals at the output
boundary, like every stored statistic); and the sample standard deviation
of [10, 20, 30] is exactly 10. -/
theorem spread_stdev_or_fallback :
    (∀ products : List MarketAnalyzer.Product,
      MarketAnalyzer.parsedPrices products ≠ [] →
      (MarketAnalyzer.analyze_prices products).2.market_stats.price_std =
        round2R (if 2 ≤ (MarketAnalyzer.parsedPrices products).length then
            stdevSpec (MarketAnalyzer.parsedPrices products)
          else ((pyMean (MarketAnalyzer.parsedPrices products) : ℚ) : ℝ) * (20 / 100))) ∧
    stdevSpec [10, 20, 30] = 10 := by
  refine ⟨?_, stdevSpec_example⟩
  intro products h
  rw [analyze_prices_stats products h, price_std_of_eq]

/-- Witness for `spread_stdev_or_fallback` at a single priced record
(the 20%-of-mean fallback branch). -/
theorem spread_stdev_or_fallback_witness :
    MarketAnalyzer.parsedPrices demoProducts1 ≠ [] ∧
    ¬ 2 ≤ (MarketAnalyzer.parsedPrices demoProducts1).length ∧
    (MarketAnalyzer.analyze_prices demoProducts1).2.market_stats.price_std =
      round2R (if 2 ≤ (MarketAnalyzer.parsedPrices demoProducts1).length then
          stdevSpec (MarketAnalyzer.parsedPrices demoProducts1)
        else ((pyMean (MarketAnalyzer.parsedPrices demoProducts1) : ℚ) : ℝ) * (20 / 100)) :=
  ⟨by decide, by decide, spread_stdev_or_fallback.1 demoProducts1 (by decide)⟩

/-! ## C10 -/

/-- C10: the chat responder returns the fixed "analyze data first" message
exactly when the supplied product list is absent or empty; the guard is
keyed on the product data, not the market analysis — with a non-empty
product list and a missing analysis the responder does not return the fixed
message (it crashes subscripting `None` before any delegate call), and the
delegate is invoked only when both product data and analysis are present. -/
theorem chat_guard_keyed_on_products :
    ∀ (q : PyStr) (pd : Option (List MarketAnalyzer.Product))
      (ma : Option MarketAnalyzer.Analysis),
    (ChatbotAssistant.generate_response q pd ma =
        ChatbotAssistant.ChatOutcome.returned ChatbotAssistant.fixedChatMessage ↔
      pd = none ∨ pd = some []) ∧
    (ChatbotAssistant.generate_response q pd ma = ChatbotAssistant.ChatOutcome.delegated →
      pd ≠ none ∧ pd ≠ some [] ∧ ma ≠ none) ∧
    (pd ≠ none → pd ≠ some [] → ma = none →
      ChatbotAssistant.generate_response q pd ma = ChatbotAssistant.ChatOutcome.crashed) := by
  intro q pd ma
  rcases pd with _ | pl
  · exact ⟨by simp [ChatbotAssistant.generate_response],
      by simp [ChatbotAssistant.generate_response],
      fun h _ _ => absurd rfl h⟩
  · rcases pl with _ | ⟨p, ps⟩
    · exact ⟨by simp [ChatbotAssistant.generate_response],
        by simp [ChatbotAssistant.generate_response],
        fun _ h _ => absurd rfl h⟩
    · rcases ma with _ | a
      · refine ⟨by simp [ChatbotAssistant.generate_response], ?_, fun _ _ _ => rfl⟩
        simp [ChatbotAssistant.generate_response]
      · refine ⟨by simp [ChatbotAssistant.generate_response], ?_, fun _ _ h => by cases h⟩
        intro _
        exact ⟨by simp, by simp, by simp⟩

/-- Witness for `chat_guard_keyed_on_products`: one non-empty product list
with a missing analysis (crash, not the fixed message), and one absent
product list (the fixed message). -/
theorem chat_guard_keyed_on_products_witness :
    ChatbotAssistant.generate_response [] (some [{ price := none, brand := none }]) none =
      ChatbotAssistant.ChatOutcome.crashed ∧
    ChatbotAssistant.generate_response [] none none =
      ChatbotAssistant.ChatOutcome.returned ChatbotAssistant.fixedChatMessage :=
  ⟨(chat_guard_keyed_on_products [] (some [{ price := none, brand := none }]) none).2.2
      (by decide) (by decide) rfl,
   ((chat_guard_keyed_on_products [] none none).1).mpr (Or.inl rfl)⟩

